import Mathlib

/-!
# Completion-correlation watcher: shallow embedding

Shallow embedding of the completion-correlation watcher
(`awaitComputationFinalization` and its helpers `serializeLE`, `bytesEqual`,
the event discriminator constant, and the per-line decode-and-match step)
from `src/unnamed/part_004`, together with theorems settling the claims of the spec about it.

Modelling conventions:
* JS `bigint`/byte values become `Nat` (bytes are `Nat`s below 256).
* `Uint8Array`s become `List Nat`.
* The RPC environment is passed in as explicit data: a `ListingResult` per
  poll attempt describes what the listing call and the per-container
  transaction fetches would have produced on that attempt (including
  thrown transport errors and `null` transactions).
* Thrown-and-caught exceptions become `Option`/explicit constructors;
  the single surfaced error becomes `Except TimeoutError`.
* `atob` is embedded as the forgiving-base64 decoder (whitespace removal,
  optional `=` padding, failure on any out-of-alphabet character).
-/

namespace OpportunityMarkets

/-! ## Byte-level primitives (`src/unnamed/part_004`) -/

/-- Event discriminator for `FinalizeComputationEvent`:
first 8 bytes of SHA256 of the event name, as the fixed constant in the source. -/
def FINALIZE_COMPUTATION_EVENT_DISCRIMINATOR : List Nat :=
  [27, 75, 117, 221, 191, 213, 253, 249]

/-- `serializeLE(val, lengthInBytes)`: little-endian byte array of the given
length; each step emits `val & 255` and shifts `val` right by 8 bits. -/
def serializeLE (val : Nat) : Nat → List Nat
  | 0 => []
  | n + 1 => val % 256 :: serializeLE (val / 256) n

/-- `bytesEqual(a, b)`: length check, then element-wise equality. -/
def bytesEqual (a b : List Nat) : Bool :=
  if a.length ≠ b.length then false
  else (a.zip b).all fun p => p.1 == p.2

/-! ## Base64 decoding (`atob`, forgiving-base64) -/

/-- ASCII whitespace removed by forgiving-base64 before decoding. -/
def isB64Ws (c : Char) : Bool :=
  c == '\t' || c == '\n' || c == '\x0c' || c == '\r' || c == ' '

/-- Value of a base64 alphabet character; `none` for anything else. -/
def b64Char? (c : Char) : Option Nat :=
  if 'A' ≤ c && c ≤ 'Z' then some (c.toNat - 65)
  else if 'a' ≤ c && c ≤ 'z' then some (c.toNat - 97 + 26)
  else if '0' ≤ c && c ≤ '9' then some (c.toNat - 48 + 52)
  else if c == '+' then some 62
  else if c == '/' then some 63
  else none

/-- Strip one or two trailing `=` padding characters. -/
def stripPad (t : List Char) : List Char :=
  match t.reverse with
  | c1 :: c2 :: r =>
    if c1 = '=' then (if c2 = '=' then r.reverse else (c2 :: r).reverse) else t
  | c1 :: r => if c1 = '=' then r.reverse else t
  | [] => t

/-- Map every character to its sextet value; fail on the first invalid one. -/
def decodeSextets : List Char → Option (List Nat)
  | [] => some []
  | c :: rest =>
    match b64Char? c, decodeSextets rest with
    | some v, some vs => some (v :: vs)
    | _, _ => none

/-- Reassemble sextets into bytes: groups of four sextets give three bytes,
a trailing pair gives one byte, a trailing triple gives two bytes. -/
def sextetsToBytes : List Nat → List Nat
  | a :: b :: c :: d :: rest =>
    (a * 4 + b / 16) :: ((b % 16) * 16 + c / 4) :: ((c % 4) * 64 + d) ::
      sextetsToBytes rest
  | [a, b] => [a * 4 + b / 16]
  | [a, b, c] => [a * 4 + b / 16, (b % 16) * 16 + c / 4]
  | _ => []

/-- `atob` on a character list: remove ASCII whitespace, strip padding when the
length is a multiple of four, reject length `≡ 1 (mod 4)`, then decode; any
out-of-alphabet character (including a stray `=`) makes the whole decode fail.
The thrown `InvalidCharacterError` of the source is embedded as `none`. -/
def atobDecode (s : List Char) : Option (List Nat) :=
  let t := s.filter fun c => ! isB64Ws c
  let u := if t.length % 4 == 0 then stripPad t else t
  if u.length % 4 == 1 then none
  else (decodeSextets u).map sextetsToBytes

/-! ## Substring scanning (JS `String.includes` / `String.split`) -/

/-- `s.includes(pat)` on character lists. -/
def containsSub : List Char → List Char → Bool
  | [], pat => pat.isEmpty
  | s@(_ :: rest), pat => pat.isPrefixOf s || containsSub rest pat

/-- The suffix after the first occurrence of `pat`; `none` if `pat` does not
occur (so that `split(pat)[1]` is `undefined`). -/
def dropAfterFirst (pat : List Char) : List Char → Option (List Char)
  | [] => none
  | s@(_ :: rest) =>
    if pat.isPrefixOf s then some (s.drop pat.length)
    else dropAfterFirst pat rest

/-- The prefix up to the next occurrence of `pat` (the whole list when `pat`
does not occur); composing with `dropAfterFirst` yields `split(pat)[1]`. -/
def takeUntilPat : List Char → List Char → List Char
  | [], _ => []
  | s@(c :: rest), pat =>
    if pat.isPrefixOf s then [] else c :: takeUntilPat rest pat

/-- The marker tested with `includes` in the source: no trailing space. -/
def markerIncludes : String := "Program data:"

/-- The separator used with `split` in the source: with trailing space. -/
def markerSplit : String := "Program data: "

/-! ## Per-line decode step and matching (`src/unnamed/part_004`) -/

/-- The decode part of the per-line step: marker recognition via `includes`,
payload extraction as index 1 of `split` on the marker, the emptiness guard, and
the guarded `atob`. Every failure (`undefined`/empty payload, a thrown decode
error caught by the inner `try`) is `none`, i.e. the `continue` of the source. -/
def decodedPayload? (log : String) : Option (List Nat) :=
  if containsSub log.toList markerIncludes.toList then
    match dropAfterFirst markerSplit.toList log.toList with
    | none => none
    | some tail =>
      let base64Data := takeUntilPat tail markerSplit.toList
      if base64Data.isEmpty then none
      else atobDecode base64Data
  else none

/-- The full per-line step: decode, then length, discriminator, offset and
emitter-identity checks exactly as in the nested conditionals of the source. -/
def lineMatches (offsetBytes mxeProgramIdBytes : List Nat) (log : String) : Bool :=
  match decodedPayload? log with
  | none => false
  | some eventData =>
    decide (48 ≤ eventData.length) &&
    bytesEqual (eventData.take 8) FINALIZE_COMPUTATION_EVENT_DISCRIMINATOR &&
    (bytesEqual ((eventData.drop 8).take 8) offsetBytes &&
     bytesEqual ((eventData.drop 16).take 32) mxeProgramIdBytes)

/-! ## The polling loop over an explicit environment trace -/

/-- Outcome of `getTransaction` for one listed signature: a thrown transport
error, a `null` transaction, or a transaction with its log messages
(`tx.meta?.logMessages || []` makes missing logs the empty list). -/
inductive FetchResult where
  | err : FetchResult
  | nullTx : FetchResult
  | tx (logs : List String) : FetchResult
deriving DecidableEq, Repr

/-- Outcome of `getSignaturesForAddress` for one poll attempt: a thrown
transport error, or the listed signatures paired with what fetching each
would produce. -/
inductive ListingResult where
  | err : ListingResult
  | ok (containers : List (String × FetchResult)) : ListingResult
deriving DecidableEq, Repr

/-- Scan over all log lines of one transaction. -/
def scanLogs (offsetBytes mxeProgramIdBytes : List Nat) : List String → Bool
  | [] => false
  | log :: rest =>
    lineMatches offsetBytes mxeProgramIdBytes log ||
      scanLogs offsetBytes mxeProgramIdBytes rest

/-- Scan the listed signatures in order. A thrown fetch aborts the attempt
(the enclosing `catch` swallows it); a `null` transaction is skipped; the
first transaction whose logs match returns its signature. -/
def scanContainers (offsetBytes mxeProgramIdBytes : List Nat) :
    List (String × FetchResult) → Option String
  | [] => none
  | (_, FetchResult.err) :: _ => none
  | (_, FetchResult.nullTx) :: rest =>
    scanContainers offsetBytes mxeProgramIdBytes rest
  | (sig, FetchResult.tx logs) :: rest =>
    if scanLogs offsetBytes mxeProgramIdBytes logs then some sig
    else scanContainers offsetBytes mxeProgramIdBytes rest

/-- One poll attempt: a thrown listing call is also swallowed by the `catch`,
yielding no match. -/
def runAttempt (offsetBytes mxeProgramIdBytes : List Nat) :
    ListingResult → Option String
  | ListingResult.err => none
  | ListingResult.ok containers =>
    scanContainers offsetBytes mxeProgramIdBytes containers

/-- The attempt loop, returning `(attempts made, sleeps performed, result)`.
`attempt` is the current loop index, the last argument the remaining budget.
A match returns before the sleep of that attempt; every non-matching attempt
(including a swallowed error) sleeps `pollInterval` once and continues. -/
def awaitGoN (offsetBytes mxeProgramIdBytes : List Nat)
    (trace : Nat → ListingResult) (attempt : Nat) :
    Nat → Nat × Nat × Option String
  | 0 => (0, 0, none)
  | remaining + 1 =>
    match runAttempt offsetBytes mxeProgramIdBytes (trace attempt) with
    | some sig => (1, 0, some sig)
    | none =>
      let t := awaitGoN offsetBytes mxeProgramIdBytes trace (attempt + 1) remaining
      (t.1 + 1, t.2.1 + 1, t.2.2)

/-- The one error the function ever throws, carrying the attempt budget and
the awaited offset exactly as the thrown message interpolates them. -/
structure TimeoutError where
  attempts : Nat
  offset : Nat
deriving DecidableEq, Repr

/-- `awaitComputationFinalization`, over an explicit per-attempt environment
trace. Returns the outcome together with the number of attempts made and of
`pollInterval` sleeps performed. `mxeProgramIdBytes` is the 32-byte address
encoding of the (resolved) `mxeProgramId` that the source precomputes. -/
def awaitComputationFinalization (computationOffset : Nat)
    (mxeProgramIdBytes : List Nat) (maxAttempts : Nat)
    (trace : Nat → ListingResult) :
    Except TimeoutError String × Nat × Nat :=
  let offsetBytes := serializeLE computationOffset 8
  match awaitGoN offsetBytes mxeProgramIdBytes trace 0 maxAttempts with
  | (a, s, some sig) => (Except.ok sig, a, s)
  | (a, s, none) => (Except.error ⟨maxAttempts, computationOffset⟩, a, s)

/-! ## Option resolution and the listing request (`src/unnamed/part_004`) -/

/-- Modelled from the spec: the fixed public identity of the external
log-source program (`ARCIUM_PROGRAM_ID`, imported from `./constants`, whose
definition is not among the provided sources). Its concrete value is
irrelevant to every theorem below; a placeholder token stands in for it. -/
def ARCIUM_PROGRAM_ID : String := "ArciumProgramIdPlaceholder"

/-- Modelled from the spec: the own address of the market program
(`OPPORTUNITY_MARKET_PROGRAM_ADDRESS`, imported from `../generated`, whose
definition is not among the provided sources). Placeholder token as above. -/
def OPPORTUNITY_MARKET_PROGRAM_ADDRESS : String :=
  "OpportunityMarketProgramAddressPlaceholder"

/-- The optional `options` argument: `mxeProgramId` and `signaturesToCheck`
are optional fields, `pollInterval` and `maxAttempts` are required fields of
the (itself optional) record. -/
structure AwaitOptions where
  mxeProgramId : Option String
  signaturesToCheck : Option Nat
  pollInterval : Nat
  maxAttempts : Nat
deriving DecidableEq, Repr

/-- `options?.mxeProgramId ?? OPPORTUNITY_MARKET_PROGRAM_ADDRESS`. -/
def resolveMxeProgramId (options : Option AwaitOptions) : String :=
  (options.bind AwaitOptions.mxeProgramId).getD OPPORTUNITY_MARKET_PROGRAM_ADDRESS

/-- `options?.signaturesToCheck ?? 50`. -/
def resolveSignaturesToCheck (options : Option AwaitOptions) : Nat :=
  (options.bind AwaitOptions.signaturesToCheck).getD 50

/-- `options?.pollInterval ?? 1000`. -/
def resolvePollInterval (options : Option AwaitOptions) : Nat :=
  (options.map AwaitOptions.pollInterval).getD 1000

/-- `options?.maxAttempts ?? 120`. -/
def resolveMaxAttempts (options : Option AwaitOptions) : Nat :=
  (options.map AwaitOptions.maxAttempts).getD 120

/-- The `(address, limit)` pair passed to the per-attempt listing call
`rpc.getSignaturesForAddress(ARCIUM_PROGRAM_ID, { limit: signaturesToCheck })`:
the address argument is the fixed constant, not the resolved `mxeProgramId`. -/
def listingRequest (options : Option AwaitOptions) : String × Nat :=
  (ARCIUM_PROGRAM_ID, resolveSignaturesToCheck options)

/-! ## Decoder of the comparison key -/

/-- Modelled from the spec: the `Decode` direction of the
`HandleEncoder` contract (`Decode(Encode(h, w)) == h`); the source only ever
serializes, so the little-endian reading of a byte array is taken from the
words of the spec. -/
def deserializeLE : List Nat → Nat
  | [] => 0
  | b :: rest => b + 256 * deserializeLE rest

/-- `containerFound` holds of a listed signature when its transaction was
fetched and one of its log lines matches. Statement vocabulary for the
theorems below. -/
def containerFound (offsetBytes mxeProgramIdBytes : List Nat) :
    String × FetchResult → Bool
  | (_, FetchResult.tx logs) => scanLogs offsetBytes mxeProgramIdBytes logs
  | _ => false

/-! ## Helper lemmas -/

theorem zipAll_iff : ∀ a b : List Nat, a.length = b.length →
    (((a.zip b).all fun p => p.1 == p.2) = true ↔ a = b) := by
  intro a
  induction a with
  | nil =>
    intro b h
    cases b with
    | nil => simp
    | cons y ys => simp at h
  | cons x xs ih =>
    intro b h
    cases b with
    | nil => simp at h
    | cons y ys =>
      have hl : xs.length = ys.length := by simpa using h
      simp only [List.zip_cons_cons, List.all_cons, Bool.and_eq_true,
        beq_iff_eq, List.cons.injEq]
      rw [ih ys hl]

theorem bytesEqual_iff (a b : List Nat) : bytesEqual a b = true ↔ a = b := by
  unfold bytesEqual
  by_cases h : a.length = b.length
  · rw [if_neg (by simp [h])]
    exact zipAll_iff a b h
  · rw [if_pos h]
    constructor
    · intro hfalse
      simp at hfalse
    · intro heq
      exact absurd (heq ▸ rfl) h

theorem serializeLE_length (val n : Nat) : (serializeLE val n).length = n := by
  induction n generalizing val with
  | zero => rfl
  | succ n ih => simp [serializeLE, ih]

theorem containsSub_of_prefix {s pat : List Char}
    (h : pat.isPrefixOf s = true) : containsSub s pat = true := by
  cases s with
  | nil =>
    cases pat with
    | nil => rfl
    | cons c cs => simp [List.isPrefixOf] at h
  | cons a rest => simp [containsSub, h]

theorem dropAfterFirst_append (pat t : List Char) (h : pat ≠ []) :
    dropAfterFirst pat (pat ++ t) = some t := by
  cases pat with
  | nil => exact absurd rfl h
  | cons p ps =>
    have hpre : (p :: ps).isPrefixOf ((p :: ps) ++ t) = true :=
      List.isPrefixOf_iff_prefix.mpr (List.prefix_append _ _)
    have hdrop : ((p :: ps) ++ t).drop (p :: ps).length = t := List.drop_left _ _
    rw [List.cons_append] at hpre hdrop
    rw [List.cons_append]
    simp [dropAfterFirst, hpre, hdrop]

theorem takeUntilPat_of_not_mem {pat : List Char} {c : Char} (hc : c ∈ pat) :
    ∀ s : List Char, c ∉ s → takeUntilPat s pat = s := by
  intro s
  induction s with
  | nil => intro _; rfl
  | cons a rest ih =>
    intro hmem
    have hnp : pat.isPrefixOf (a :: rest) = false := by
      by_contra hcon
      have hpre : pat <+: a :: rest :=
        List.isPrefixOf_iff_prefix.mp (eq_true_of_ne_false hcon)
      exact hmem (hpre.subset hc)
    have hrest : c ∉ rest := fun hr => hmem (List.mem_cons_of_mem _ hr)
    simp [takeUntilPat, hnp, ih hrest]

theorem mem_stripPad {t : List Char} {c : Char} (hne : c ≠ '=') (hm : c ∈ t) :
    c ∈ stripPad t := by
  have hrev : c ∈ t.reverse := List.mem_reverse.mpr hm
  rcases hrv : t.reverse with _ | ⟨a, _ | ⟨b, r⟩⟩
  · simpa [stripPad, hrv] using hm
  · by_cases hA : a = '='
    · subst hA
      rw [hrv] at hrev
      simp [hne] at hrev
    · simpa [stripPad, hrv, hA] using hm
  · rw [hrv] at hrev
    by_cases hA : a = '='
    · subst hA
      simp [hne] at hrev
      by_cases hB : b = '='
      · subst hB
        simp [hne] at hrev
        simp [stripPad, hrv, List.mem_reverse, hrev]
      · simp [stripPad, hrv, hB, List.mem_reverse]
        tauto
    · simpa [stripPad, hrv, hA] using hm

theorem decodeSextets_isSome {l : List Char} {v : List Nat}
    (h : decodeSextets l = some v) : ∀ c ∈ l, (b64Char? c).isSome = true := by
  induction l generalizing v with
  | nil => intro c hc; cases hc
  | cons a rest ih =>
    intro c hc
    cases hb : b64Char? a <;> cases hr : decodeSextets rest <;>
      simp [decodeSextets, hb, hr] at h
    rcases List.mem_cons.mp hc with rfl | hc2
    · simp [hb]
    · exact ih hr c hc2

theorem atobDecode_colon_not_mem {s : List Char} {d : List Nat}
    (h : atobDecode s = some d) : ':' ∉ s := by
  intro hc
  have hct : ':' ∈ s.filter fun c => ! isB64Ws c :=
    List.mem_filter.mpr ⟨hc, by decide⟩
  unfold atobDecode at h
  simp only at h
  set t := s.filter fun c => ! isB64Ws c with ht
  set u := if t.length % 4 == 0 then stripPad t else t with hu
  have hcu : ':' ∈ u := by
    rw [hu]
    split
    · exact mem_stripPad (by decide) hct
    · exact hct
  cases h1 : (u.length % 4 == 1) with
  | true => rw [h1] at h; simp at h
  | false =>
    rw [h1] at h
    simp only [Bool.false_eq_true, if_false] at h
    rcases hmap : decodeSextets u with _ | vals
    · rw [hmap] at h
      simp at h
    · exact absurd (decodeSextets_isSome hmap ':' hcu) (by decide)

theorem serializeLE_mod (w : Nat) : ∀ h : Nat,
    serializeLE h w = serializeLE (h % 2 ^ (8 * w)) w := by
  induction w with
  | zero => intro h; rfl
  | succ w ih =>
    intro h
    have hpow : (2 : Nat) ^ (8 * (w + 1)) = 256 * 2 ^ (8 * w) := by
      rw [Nat.mul_succ, pow_add]
      ring
    have hdvd : (256 : Nat) ∣ 2 ^ (8 * (w + 1)) := by
      rw [hpow]; exact ⟨2 ^ (8 * w), rfl⟩
    have h1 : h % 2 ^ (8 * (w + 1)) % 256 = h % 256 :=
      Nat.mod_mod_of_dvd h hdvd
    have h2 : h % 2 ^ (8 * (w + 1)) / 256 = h / 256 % 2 ^ (8 * w) := by
      rw [hpow]
      exact Nat.mod_mul_right_div_self h 256 (2 ^ (8 * w))
    simp only [serializeLE, h1, h2]
    rw [← ih (h / 256)]

theorem serializeLE_getD (w : Nat) : ∀ (h i : Nat), i < w →
    (serializeLE h w).getD i 0 = h / 256 ^ i % 256 := by
  induction w with
  | zero => intro h i hi; cases hi
  | succ w ih =>
    intro h i hi
    cases i with
    | zero => simp [serializeLE]
    | succ i =>
      have hrec := ih (h / 256) i (Nat.lt_of_succ_lt_succ hi)
      have hpow : (256 : Nat) ^ (i + 1) = 256 * 256 ^ i := by
        rw [pow_succ]; ring
      simp only [serializeLE, List.getD_cons_succ, hrec,
        Nat.div_div_eq_div_mul, hpow]

theorem deserializeLE_serializeLE (w : Nat) : ∀ h : Nat, h < 2 ^ (8 * w) →
    deserializeLE (serializeLE h w) = h := by
  induction w with
  | zero =>
    intro h hh
    have : h = 0 := Nat.lt_one_iff.mp (by simpa using hh)
    simp [this, serializeLE, deserializeLE]
  | succ w ih =>
    intro h hh
    have hpow : (2 : Nat) ^ (8 * (w + 1)) = 2 ^ (8 * w) * 256 := by
      rw [Nat.mul_succ, pow_add]
      ring
    have hdiv : h / 256 < 2 ^ (8 * w) := by
      rw [Nat.div_lt_iff_lt_mul (by norm_num : (0 : Nat) < 256)]
      rw [hpow] at hh
      exact hh
    simp only [serializeLE, deserializeLE, ih (h / 256) hdiv]
    exact Nat.mod_add_div h 256

theorem markerSplit_toList :
    markerSplit.toList = markerIncludes.toList ++ [' '] := by decide

theorem atobDecode_nil : atobDecode [] = some [] := by decide

theorem decodedPayload?_append (log : String) (b64 : List Char)
    (data : List Nat) (hlog : log.toList = markerSplit.toList ++ b64)
    (hdec : atobDecode b64 = some data) (hne : b64 ≠ []) :
    decodedPayload? log = some data := by
  have hcontains : containsSub log.toList markerIncludes.toList = true := by
    rw [hlog, markerSplit_toList, List.append_assoc]
    exact containsSub_of_prefix
      (List.isPrefixOf_iff_prefix.mpr (List.prefix_append _ _))
  have hdrop : dropAfterFirst markerSplit.toList log.toList = some b64 := by
    rw [hlog]
    exact dropAfterFirst_append _ _ (by decide)
  have htake : takeUntilPat b64 markerSplit.toList = b64 :=
    takeUntilPat_of_not_mem (by decide) b64 (atobDecode_colon_not_mem hdec)
  have hempty : b64.isEmpty = false := by
    cases b64 with
    | nil => exact absurd rfl hne
    | cons c cs => rfl
  unfold decodedPayload?
  rw [hcontains, if_pos rfl, hdrop]
  simp only [htake, hempty, Bool.false_eq_true, if_false]
  exact hdec

theorem lineMatches_true_iff (off emit : List Nat) (log : String) :
    lineMatches off emit log = true ↔
      ∃ data, decodedPayload? log = some data ∧ 48 ≤ data.length ∧
        data.take 8 = FINALIZE_COMPUTATION_EVENT_DISCRIMINATOR ∧
        (data.drop 8).take 8 = off ∧ (data.drop 16).take 32 = emit := by
  unfold lineMatches
  cases hdp : decodedPayload? log with
  | none => simp
  | some data =>
    simp only [Bool.and_eq_true, decide_eq_true_eq, bytesEqual_iff,
      Option.some.injEq]
    constructor
    · rintro ⟨⟨h1, h2⟩, h3, h4⟩
      exact ⟨data, rfl, h1, h2, h3, h4⟩
    · rintro ⟨d, rfl, h1, h2, h3, h4⟩
      exact ⟨⟨h1, h2⟩, h3, h4⟩

theorem lineMatches_of_slices (off emit : List Nat) (log : String)
    (data : List Nat) (hdp : decodedPayload? log = some data)
    (hlen : 48 ≤ data.length)
    (hdisc : data.take 8 = FINALIZE_COMPUTATION_EVENT_DISCRIMINATOR)
    (hoff : (data.drop 8).take 8 = off)
    (hemit : (data.drop 16).take 32 = emit) :
    lineMatches off emit log = true :=
  (lineMatches_true_iff off emit log).mpr ⟨data, hdp, hlen, hdisc, hoff, hemit⟩

theorem scanLogs_of_mem (off emit : List Nat) {logs : List String}
    {log : String} (hm : log ∈ logs)
    (h : lineMatches off emit log = true) :
    scanLogs off emit logs = true := by
  induction logs with
  | nil => cases hm
  | cons a rest ih =>
    rcases List.mem_cons.mp hm with rfl | hm2
    · simp [scanLogs, h]
    · simp [scanLogs, ih hm2]

theorem scanContainers_found (off emit : List Nat)
    (pre post : List (String × FetchResult)) (sig : String)
    (logs : List String)
    (herr : ∀ p ∈ pre, p.2 ≠ FetchResult.err)
    (hm : scanLogs off emit logs = true) :
    ∃ s, scanContainers off emit
        (pre ++ (sig, FetchResult.tx logs) :: post) = some s ∧
      ∃ ls, (s, FetchResult.tx ls) ∈ pre ++ (sig, FetchResult.tx logs) :: post ∧
        scanLogs off emit ls = true := by
  induction pre with
  | nil =>
    refine ⟨sig, ?_, logs, ?_, hm⟩
    · simp [scanContainers, hm]
    · simp
  | cons p pre ih =>
    obtain ⟨s1, f1⟩ := p
    cases f1 with
    | err => exact absurd rfl (herr (s1, FetchResult.err) (by simp))
    | nullTx =>
      obtain ⟨s, hs, ls, hmem, hls⟩ :=
        ih fun q hq => herr q (List.mem_cons_of_mem _ hq)
      exact ⟨s, by simpa [scanContainers] using hs, ls,
        List.mem_cons_of_mem _ hmem, hls⟩
    | tx logs1 =>
      cases hsc : scanLogs off emit logs1 with
      | true =>
        exact ⟨s1, by simp [scanContainers, hsc], logs1, by simp, hsc⟩
      | false =>
        obtain ⟨s, hs, ls, hmem, hls⟩ :=
          ih fun q hq => herr q (List.mem_cons_of_mem _ hq)
        exact ⟨s, by simp [scanContainers, hsc, hs], ls,
          List.mem_cons_of_mem _ hmem, hls⟩

theorem scanContainers_first (off emit : List Nat)
    (pre suf : List (String × FetchResult)) (sig : String)
    (logs : List String)
    (hpre : ∀ p ∈ pre, p.2 ≠ FetchResult.err ∧
      containerFound off emit p = false)
    (hm : scanLogs off emit logs = true) :
    scanContainers off emit (pre ++ (sig, FetchResult.tx logs) :: suf) =
      some sig := by
  induction pre with
  | nil => simp [scanContainers, hm]
  | cons p pre ih =>
    obtain ⟨s1, f1⟩ := p
    have hp := hpre (s1, f1) (by simp)
    cases f1 with
    | err => exact absurd rfl hp.1
    | nullTx =>
      simpa [scanContainers] using
        ih fun q hq => hpre q (List.mem_cons_of_mem _ hq)
    | tx logs1 =>
      have hf : scanLogs off emit logs1 = false := by
        simpa [containerFound] using hp.2
      simpa [scanContainers, hf] using
        ih fun q hq => hpre q (List.mem_cons_of_mem _ hq)

theorem scanContainers_err_aborts (off emit : List Nat)
    (pre suf : List (String × FetchResult)) (sig : String)
    (hpre : ∀ p ∈ pre, containerFound off emit p = false) :
    scanContainers off emit (pre ++ (sig, FetchResult.err) :: suf) = none := by
  induction pre with
  | nil => rfl
  | cons p pre ih =>
    obtain ⟨s1, f1⟩ := p
    cases f1 with
    | err => rfl
    | nullTx =>
      simpa [scanContainers] using
        ih fun q hq => hpre q (List.mem_cons_of_mem _ hq)
    | tx logs1 =>
      have hf : scanLogs off emit logs1 = false := by
        simpa [containerFound] using hpre (s1, FetchResult.tx logs1) (by simp)
      simpa [scanContainers, hf] using
        ih fun q hq => hpre q (List.mem_cons_of_mem _ hq)

theorem awaitGoN_none (off emit : List Nat) (trace : Nat → ListingResult) :
    ∀ (n start : Nat),
      (∀ i, i < n → runAttempt off emit (trace (start + i)) = none) →
      awaitGoN off emit trace start n = (n, n, none) := by
  intro n
  induction n with
  | zero => intro start h; rfl
  | succ m ih =>
    intro start h
    have h0 : runAttempt off emit (trace start) = none := by
      simpa using h 0 (Nat.succ_pos m)
    have hrest := ih (start + 1) fun i hi => by
      have hx : start + 1 + i = start + (i + 1) := by omega
      rw [hx]
      exact h (i + 1) (Nat.succ_lt_succ hi)
    simp [awaitGoN, h0, hrest]

theorem awaitGoN_found (off emit : List Nat) (trace : Nat → ListingResult)
    (s : String) :
    ∀ (k n start : Nat), k < n →
      (∀ i, i < k → runAttempt off emit (trace (start + i)) = none) →
      runAttempt off emit (trace (start + k)) = some s →
      awaitGoN off emit trace start n = (k + 1, k, some s) := by
  intro k
  induction k with
  | zero =>
    intro n start hn hprev hk
    obtain ⟨m, rfl⟩ : ∃ m, n = m + 1 :=
      ⟨n - 1, (Nat.succ_pred_eq_of_pos hn).symm⟩
    rw [Nat.add_zero] at hk
    simp [awaitGoN, hk]
  | succ k ih =>
    intro n start hn hprev hk
    obtain ⟨m, rfl⟩ : ∃ m, n = m + 1 :=
      ⟨n - 1, (Nat.succ_pred_eq_of_pos (Nat.lt_of_le_of_lt (Nat.zero_le _) hn)).symm⟩
    have h0 : runAttempt off emit (trace start) = none := by
      simpa using hprev 0 (Nat.succ_pos k)
    have hk1 : runAttempt off emit (trace (start + 1 + k)) = some s := by
      have hx : start + 1 + k = start + (k + 1) := by omega
      rw [hx]; exact hk
    have hrest := ih m (start + 1) (Nat.lt_of_succ_lt_succ hn)
      (fun i hi => by
        have hx : start + 1 + i = start + (i + 1) := by omega
        rw [hx]
        exact hprev (i + 1) (Nat.succ_lt_succ hi))
      hk1
    simp [awaitGoN, h0, hrest]

theorem serializeLE_inj {h1 h2 : Nat} (hw1 : h1 < 2 ^ 64) (hw2 : h2 < 2 ^ 64)
    (heq : serializeLE h1 8 = serializeLE h2 8) : h1 = h2 := by
  have e1 := deserializeLE_serializeLE 8 h1 (by norm_num at hw1 ⊢; exact hw1)
  have e2 := deserializeLE_serializeLE 8 h2 (by norm_num at hw2 ⊢; exact hw2)
  rw [← e1, ← e2, heq]

/-! ## Claim theorems -/

/-- Claim C1: for every poll attempt of `awaitComputationFinalization`, if
among the fetched containers there is a log line consisting of the marker
followed by a base64 payload of at least 48 bytes whose bytes 0..8 equal the
discriminator, bytes 8..16 the little-endian encoding of the awaited handle,
and bytes 16..48 the emitter identity bytes, then the call returns the
identifier of a container holding a matching line within that same attempt,
regardless of unrelated lines in the same or other containers. -/
theorem c1_found_within_attempt
    (computationOffset : Nat) (emit : List Nat) (maxAttempts k : Nat)
    (trace : Nat → ListingResult)
    (pre post : List (String × FetchResult)) (sig : String)
    (logs : List String) (log : String) (b64 : List Char) (data : List Nat)
    (hk : k < maxAttempts)
    (hprev : ∀ i, i < k →
      runAttempt (serializeLE computationOffset 8) emit (trace i) = none)
    (htrace : trace k =
      ListingResult.ok (pre ++ (sig, FetchResult.tx logs) :: post))
    (hpre : ∀ p ∈ pre, p.2 ≠ FetchResult.err)
    (hlog : log ∈ logs)
    (hline : log.toList = markerSplit.toList ++ b64)
    (hdec : atobDecode b64 = some data)
    (hlen : 48 ≤ data.length)
    (hdisc : data.take 8 = FINALIZE_COMPUTATION_EVENT_DISCRIMINATOR)
    (hoff : (data.drop 8).take 8 = serializeLE computationOffset 8)
    (hemit : (data.drop 16).take 32 = emit) :
    ∃ s, awaitComputationFinalization computationOffset emit maxAttempts trace =
        (Except.ok s, k + 1, k) ∧
      ∃ ls, (s, FetchResult.tx ls) ∈ pre ++ (sig, FetchResult.tx logs) :: post ∧
        scanLogs (serializeLE computationOffset 8) emit ls = true := by
  have hne : b64 ≠ [] := by
    rintro rfl
    rw [atobDecode_nil] at hdec
    injection hdec with hdata
    rw [← hdata] at hlen
    simp at hlen
  have hdp := decodedPayload?_append log b64 data hline hdec hne
  have hlm : lineMatches (serializeLE computationOffset 8) emit log = true :=
    lineMatches_of_slices _ _ log data hdp hlen hdisc hoff hemit
  have hsl : scanLogs (serializeLE computationOffset 8) emit logs = true :=
    scanLogs_of_mem _ _ hlog hlm
  obtain ⟨s, hs, ls, hmem, hls⟩ :=
    scanContainers_found (serializeLE computationOffset 8) emit
      pre post sig logs hpre hsl
  have hrun : runAttempt (serializeLE computationOffset 8) emit (trace k) =
      some s := by
    rw [htrace]
    exact hs
  have hgo : awaitGoN (serializeLE computationOffset 8) emit trace 0
      maxAttempts = (k + 1, k, some s) := by
    apply awaitGoN_found (serializeLE computationOffset 8) emit trace s k
      maxAttempts 0 hk
    · intro i hi
      rw [Nat.zero_add]
      exact hprev i hi
    · rw [Nat.zero_add]
      exact hrun
  refine ⟨s, ?_, ls, hmem, hls⟩
  simp [awaitComputationFinalization, hgo]

/-- Claim C1 witness: the scenario of the spec, handle `0x1122334455667711`,
emitter all-`0xAB`, one correctly framed line plus five unrelated lines,
found on attempt 1 with zero sleeps. -/
theorem c1_witness :
    ∃ s, awaitComputationFinalization 1234605616436508433
        (List.replicate 32 171) 120
        (fun _ => ListingResult.ok [("eventSig", FetchResult.tx
          ["alpha", "beta", "gamma", "delta", "epsilon",
           "Program data: G0t13b/V/fkRd2ZVRDMiEaurq6urq6urq6urq6urq6urq6urq6urq6urq6urq6ur"])]) =
        (Except.ok s, 1, 0) ∧
      ∃ ls, (s, FetchResult.tx ls) ∈
          ([] : List (String × FetchResult)) ++ ("eventSig", FetchResult.tx
            ["alpha", "beta", "gamma", "delta", "epsilon",
             "Program data: G0t13b/V/fkRd2ZVRDMiEaurq6urq6urq6urq6urq6urq6urq6urq6urq6urq6ur"]) :: [] ∧
        scanLogs (serializeLE 1234605616436508433 8) (List.replicate 32 171)
          ls = true :=
  c1_found_within_attempt 1234605616436508433 (List.replicate 32 171) 120 0
    (fun _ => ListingResult.ok [("eventSig", FetchResult.tx
      ["alpha", "beta", "gamma", "delta", "epsilon",
       "Program data: G0t13b/V/fkRd2ZVRDMiEaurq6urq6urq6urq6urq6urq6urq6urq6urq6urq6ur"])])
    [] [] "eventSig"
    ["alpha", "beta", "gamma", "delta", "epsilon",
     "Program data: G0t13b/V/fkRd2ZVRDMiEaurq6urq6urq6urq6urq6urq6urq6urq6urq6urq6ur"]
    "Program data: G0t13b/V/fkRd2ZVRDMiEaurq6urq6urq6urq6urq6urq6urq6urq6urq6urq6ur"
    ("G0t13b/V/fkRd2ZVRDMiEaurq6urq6urq6urq6urq6urq6urq6urq6urq6urq6ur".toList)
    ([27, 75, 117, 221, 191, 213, 253, 249,
      17, 119, 102, 85, 68, 51, 34, 17] ++ List.replicate 32 171)
    (by norm_num)
    (fun i hi => absurd hi (Nat.not_lt_zero i))
    rfl
    (fun p hp => absurd hp (List.not_mem_nil p))
    (by decide)
    (by decide)
    (by decide)
    (by decide)
    (by decide)
    (by decide)
    (by decide)

/-- Claim C2: a marker-bearing line whose decoded payload is shorter than 48
bytes, or whose discriminator, handle, or emitter bytes differ from the
expected values, never matches; a longer payload with matching fields still
matches (trailing bytes ignored). The first conjunct states the general
no-false-positive direction for arbitrary lines; the second characterises
the per-line match on marker-framed lines exactly. -/
theorem c2_no_false_positives (off emit : List Nat) :
    (∀ log : String, lineMatches off emit log = true →
      ∃ data, decodedPayload? log = some data ∧ 48 ≤ data.length ∧
        data.take 8 = FINALIZE_COMPUTATION_EVENT_DISCRIMINATOR ∧
        (data.drop 8).take 8 = off ∧ (data.drop 16).take 32 = emit) ∧
    ∀ (log : String) (b64 : List Char) (data : List Nat),
      log.toList = markerSplit.toList ++ b64 → atobDecode b64 = some data →
      (lineMatches off emit log = true ↔
        (48 ≤ data.length ∧
         data.take 8 = FINALIZE_COMPUTATION_EVENT_DISCRIMINATOR ∧
         (data.drop 8).take 8 = off ∧ (data.drop 16).take 32 = emit)) := by
  constructor
  · intro log h
    exact (lineMatches_true_iff off emit log).mp h
  · intro log b64 data hline hdec
    by_cases hne : b64 = []
    · subst hne
      rw [atobDecode_nil] at hdec
      injection hdec with hdata
      subst hdata
      have hlog : log = markerSplit := by
        apply String.ext
        simpa using hline
      subst hlog
      constructor
      · intro hlm
        obtain ⟨d, hd, -⟩ := (lineMatches_true_iff off emit markerSplit).mp hlm
        rw [show decodedPayload? markerSplit = none from by decide] at hd
        cases hd
      · rintro ⟨hlen, -⟩
        simp at hlen
    · have hdp := decodedPayload?_append log b64 data hline hdec hne
      rw [lineMatches_true_iff]
      constructor
      · rintro ⟨d, hd, h1, h2, h3, h4⟩
        rw [hdp] at hd
        injection hd with hd2
        subst hd2
        exact ⟨h1, h2, h3, h4⟩
      · rintro ⟨h1, h2, h3, h4⟩
        exact ⟨data, hdp, h1, h2, h3, h4⟩

/-- Claim C2 witness: a marker-framed line whose 3-byte payload is far too
short is characterised by the iff, hence never matches. -/
theorem c2_witness :
    lineMatches (serializeLE 0 8) (List.replicate 32 171)
      "Program data: AAAA" = true ↔
      (48 ≤ ([0, 0, 0] : List Nat).length ∧
       ([0, 0, 0] : List Nat).take 8 = FINALIZE_COMPUTATION_EVENT_DISCRIMINATOR ∧
       (([0, 0, 0] : List Nat).drop 8).take 8 = serializeLE 0 8 ∧
       (([0, 0, 0] : List Nat).drop 16).take 32 = List.replicate 32 171) :=
  (c2_no_false_positives (serializeLE 0 8) (List.replicate 32 171)).2
    "Program data: AAAA" ("AAAA".toList) [0, 0, 0] (by decide) (by decide)

/-- Claim C3: when no attempt observes a match, the call makes exactly
`maxAttempts` attempts, sleeps `pollInterval` once after each of them, and
raises the single timeout failure carrying the attempt budget and the
awaited offset; on any trace whatsoever the only surfaced outcomes are a
found signature or that timeout error. -/
theorem c3_timeout_exhaustion (computationOffset : Nat) (emit : List Nat)
    (maxAttempts : Nat) (trace : Nat → ListingResult)
    (h : ∀ i, i < maxAttempts →
      runAttempt (serializeLE computationOffset 8) emit (trace i) = none) :
    awaitComputationFinalization computationOffset emit maxAttempts trace =
      (Except.error ⟨maxAttempts, computationOffset⟩, maxAttempts, maxAttempts) ∧
    ∀ tr : Nat → ListingResult,
      (∃ s, (awaitComputationFinalization computationOffset emit
        maxAttempts tr).1 = Except.ok s) ∨
      (awaitComputationFinalization computationOffset emit maxAttempts tr).1 =
        Except.error ⟨maxAttempts, computationOffset⟩ := by
  constructor
  · have hgo := awaitGoN_none (serializeLE computationOffset 8) emit trace
      maxAttempts 0 fun i hi => by
        rw [Nat.zero_add]
        exact h i hi
    simp [awaitComputationFinalization, hgo]
  · intro tr
    rcases hgo : awaitGoN (serializeLE computationOffset 8) emit tr 0
        maxAttempts with ⟨a, sl, r⟩
    cases r with
    | none =>
      right
      simp [awaitComputationFinalization, hgo]
    | some sig =>
      left
      exact ⟨sig, by simp [awaitComputationFinalization, hgo]⟩

/-- Claim C3 witness: two attempts against a permanently erroring listing
time out with the error carrying the budget and the offset. -/
theorem c3_witness :
    awaitComputationFinalization 7 [] 2 (fun _ => ListingResult.err) =
      (Except.error ⟨2, 7⟩, 2, 2) :=
  (c3_timeout_exhaustion 7 [] 2 (fun _ => ListingResult.err)
    fun _ _ => rfl).1

/-- Claim C4: the per-line step is a total function; a line whose decode step
yields nothing (no marker, empty or non-base64 payload) never matches, a
decoded-but-short payload never matches, and the scan of the remaining lines
always continues past a non-matching line. -/
theorem c4_malformed_lines_skipped (off emit : List Nat) (log : String)
    (rest : List String) :
    scanLogs off emit (log :: rest) =
      (lineMatches off emit log || scanLogs off emit rest) ∧
    (decodedPayload? log = none → lineMatches off emit log = false) ∧
    ∀ data, decodedPayload? log = some data → data.length < 48 →
      lineMatches off emit log = false := by
  refine ⟨rfl, ?_, ?_⟩
  · intro h
    unfold lineMatches
    rw [h]
  · intro data h hlt
    have hnle : ¬ (48 ≤ data.length) := Nat.not_le.mpr hlt
    unfold lineMatches
    rw [h]
    simp [hnle]

/-- Claim C4 witness: a marker-bearing line whose payload is not valid base64
is skipped, and scanning continues into the rest of the list. -/
theorem c4_witness :
    lineMatches (serializeLE 0 8) (List.replicate 32 171)
      "Program data: !!!" = false ∧
    scanLogs (serializeLE 0 8) (List.replicate 32 171)
      ["Program data: !!!", "other"] =
      (lineMatches (serializeLE 0 8) (List.replicate 32 171)
        "Program data: !!!" ||
       scanLogs (serializeLE 0 8) (List.replicate 32 171) ["other"]) :=
  ⟨(c4_malformed_lines_skipped (serializeLE 0 8) (List.replicate 32 171)
      "Program data: !!!" ["other"]).2.1 (by decide),
   (c4_malformed_lines_skipped (serializeLE 0 8) (List.replicate 32 171)
      "Program data: !!!" ["other"]).1⟩

/-- Claim C5: for every handle representable in `w` bytes, decoding the
little-endian encoding produced by `serializeLE` yields the handle again. -/
theorem c5_round_trip (h w : Nat) (hrange : h < 2 ^ (8 * w)) :
    deserializeLE (serializeLE h w) = h :=
  deserializeLE_serializeLE w h hrange

/-- Claim C5 witness: the 8-byte comparison key of the scenario handle
round-trips. -/
theorem c5_witness :
    deserializeLE (serializeLE 1234605616436508433 8) = 1234605616436508433 :=
  c5_round_trip 1234605616436508433 8 (by norm_num)

/-- Claim C6: a thrown listing call yields no match; a thrown transaction
fetch aborts the attempt with no match (when no earlier container matched);
and any no-match attempt adds one attempt and one `pollInterval` sleep and
hands control to the next attempt with the remaining budget, never surfacing
the error. -/
theorem c6_transport_errors_absorbed (off emit : List Nat)
    (pre suf : List (String × FetchResult)) (sig : String)
    (trace : Nat → ListingResult) (attempt budget : Nat) :
    runAttempt off emit ListingResult.err = none ∧
    ((∀ p ∈ pre, containerFound off emit p = false) →
      runAttempt off emit
        (ListingResult.ok (pre ++ (sig, FetchResult.err) :: suf)) = none) ∧
    (runAttempt off emit (trace attempt) = none →
      awaitGoN off emit trace attempt (budget + 1) =
        ((awaitGoN off emit trace (attempt + 1) budget).1 + 1,
         (awaitGoN off emit trace (attempt + 1) budget).2.1 + 1,
         (awaitGoN off emit trace (attempt + 1) budget).2.2)) := by
  refine ⟨rfl, ?_, ?_⟩
  · intro hpre
    exact scanContainers_err_aborts off emit pre suf sig hpre
  · intro h
    simp [awaitGoN, h]

/-- Claim C6 witness: instances of all three conjuncts at concrete traces. -/
theorem c6_witness :
    runAttempt [] [] ListingResult.err = none ∧
    runAttempt [] [] (ListingResult.ok
      [("a", FetchResult.nullTx), ("b", FetchResult.err),
       ("c", FetchResult.tx [])]) = none ∧
    awaitGoN [] [] (fun _ => ListingResult.err) 0 2 =
      ((awaitGoN [] [] (fun _ => ListingResult.err) 1 1).1 + 1,
       (awaitGoN [] [] (fun _ => ListingResult.err) 1 1).2.1 + 1,
       (awaitGoN [] [] (fun _ => ListingResult.err) 1 1).2.2) :=
  ⟨(c6_transport_errors_absorbed [] [] [] [] "x"
      (fun _ => ListingResult.err) 0 0).1,
   (c6_transport_errors_absorbed [] [] [("a", FetchResult.nullTx)]
      [("c", FetchResult.tx [])] "b" (fun _ => ListingResult.err) 0 0).2.1
      (by decide),
   (c6_transport_errors_absorbed [] [] [] [] "x"
      (fun _ => ListingResult.err) 0 1).2.2 rfl⟩

/-- Claim C7: matching is exact byte-wise equality (no prefix matching);
within an attempt the first matching container in listing order is returned,
independently of anything listed after it; and a matching attempt returns
immediately with no further attempts and no sleep. -/
theorem c7_first_match_wins :
    (∀ a b : List Nat, bytesEqual a b = true ↔ a = b) ∧
    (∀ (off emit : List Nat) (pre suf suf2 : List (String × FetchResult))
        (sig : String) (logs : List String),
      (∀ p ∈ pre, p.2 ≠ FetchResult.err ∧
        containerFound off emit p = false) →
      scanLogs off emit logs = true →
      scanContainers off emit
        (pre ++ (sig, FetchResult.tx logs) :: suf) = some sig ∧
      scanContainers off emit (pre ++ (sig, FetchResult.tx logs) :: suf) =
        scanContainers off emit (pre ++ (sig, FetchResult.tx logs) :: suf2)) ∧
    ∀ (off emit : List Nat) (trace : Nat → ListingResult)
        (attempt budget : Nat) (s : String),
      runAttempt off emit (trace attempt) = some s →
      awaitGoN off emit trace attempt (budget + 1) = (1, 0, some s) := by
  refine ⟨bytesEqual_iff, ?_, ?_⟩
  · intro off emit pre suf suf2 sig logs hpre hm
    have h1 := scanContainers_first off emit pre suf sig logs hpre hm
    have h2 := scanContainers_first off emit pre suf2 sig logs hpre hm
    exact ⟨h1, by rw [h1, h2]⟩
  · intro off emit trace attempt budget s h
    simp [awaitGoN, h]

/-- Claim C7 witness: with a zero handle and zero emitter, the first
matching container wins regardless of the suffix, and the loop stops at
once. -/
theorem c7_witness :
    (bytesEqual [1, 2] [1, 2] = true ↔ ([1, 2] : List Nat) = [1, 2]) ∧
    (scanContainers (serializeLE 0 8) (List.replicate 32 0)
      ([("p", FetchResult.nullTx)] ++ ("s", FetchResult.tx
        ["Program data: G0t13b/V/fkAAAAAAAAAAAAAAAAAAAAAAAAAAAAAAAAAAAAAAAAAAAAAAAAAAAAA"]) ::
        [("q", FetchResult.err)]) = some "s" ∧
     scanContainers (serializeLE 0 8) (List.replicate 32 0)
      ([("p", FetchResult.nullTx)] ++ ("s", FetchResult.tx
        ["Program data: G0t13b/V/fkAAAAAAAAAAAAAAAAAAAAAAAAAAAAAAAAAAAAAAAAAAAAAAAAAAAAA"]) ::
        [("q", FetchResult.err)]) =
     scanContainers (serializeLE 0 8) (List.replicate 32 0)
      ([("p", FetchResult.nullTx)] ++ ("s", FetchResult.tx
        ["Program data: G0t13b/V/fkAAAAAAAAAAAAAAAAAAAAAAAAAAAAAAAAAAAAAAAAAAAAAAAAAAAAA"]) ::
        [])) ∧
    awaitGoN (serializeLE 0 8) (List.replicate 32 0)
      (fun _ => ListingResult.ok [("s", FetchResult.tx
        ["Program data: G0t13b/V/fkAAAAAAAAAAAAAAAAAAAAAAAAAAAAAAAAAAAAAAAAAAAAAAAAAAAAA"])])
      0 5 = (1, 0, some "s") :=
  ⟨c7_first_match_wins.1 [1, 2] [1, 2],
   c7_first_match_wins.2.1 (serializeLE 0 8) (List.replicate 32 0)
     [("p", FetchResult.nullTx)] [("q", FetchResult.err)] [] "s"
     ["Program data: G0t13b/V/fkAAAAAAAAAAAAAAAAAAAAAAAAAAAAAAAAAAAAAAAAAAAAAAAAAAAAA"]
     (by decide) (by decide),
   c7_first_match_wins.2.2 (serializeLE 0 8) (List.replicate 32 0)
     (fun _ => ListingResult.ok [("s", FetchResult.tx
       ["Program data: G0t13b/V/fkAAAAAAAAAAAAAAAAAAAAAAAAAAAAAAAAAAAAAAAAAAAAAAAAAAAAA"])])
     0 4 "s" (by decide)⟩

/-- Claim C8 counterexample: the claim says the per-attempt listing call is
issued for the emitter identity supplied to the call, but the source passes
the fixed `ARCIUM_PROGRAM_ID` constant as the address of the listing call:
with a supplied `mxeProgramId` distinct from that constant (here constructed
as the constant with a character appended, so the refutation holds whatever
the value of the unprovided constant is), the address of the listing request
differs from the resolved emitter identity used for matching. -/
theorem c8_counterexample :
    (listingRequest (some ⟨some (ARCIUM_PROGRAM_ID ++ "X"), none,
      1000, 120⟩)).1 ≠
    resolveMxeProgramId (some ⟨some (ARCIUM_PROGRAM_ID ++ "X"), none,
      1000, 120⟩) := by
  decide

/-- Claim C8 amended: on every poll attempt the listing call is issued for
the fixed log-source program identity `ARCIUM_PROGRAM_ID` — not for the
supplied emitter identity — with the configured window size
(`signaturesToCheck`, default 50) as the limit; the listing address does not
vary with the options at all. -/
theorem c8_amended_fixed_listing_address
    (options options2 : Option AwaitOptions) :
    listingRequest options =
      (ARCIUM_PROGRAM_ID, resolveSignaturesToCheck options) ∧
    (listingRequest options).1 = (listingRequest options2).1 ∧
    resolveSignaturesToCheck none = 50 ∧
    listingRequest none = (ARCIUM_PROGRAM_ID, 50) :=
  ⟨rfl, rfl, rfl, rfl⟩

/-- Claim C9: distinct 64-bit handles have distinct little-endian encodings,
so no single log line can match the comparison keys of both. -/
theorem c9_handle_independence (h1 h2 : Nat) (hw1 : h1 < 2 ^ 64)
    (hw2 : h2 < 2 ^ 64) (hne : h1 ≠ h2) :
    serializeLE h1 8 ≠ serializeLE h2 8 ∧
    ∀ (emit : List Nat) (log : String),
      ¬(lineMatches (serializeLE h1 8) emit log = true ∧
        lineMatches (serializeLE h2 8) emit log = true) := by
  have hser : serializeLE h1 8 ≠ serializeLE h2 8 :=
    fun heq => hne (serializeLE_inj hw1 hw2 heq)
  refine ⟨hser, ?_⟩
  rintro emit log ⟨ha, hb⟩
  obtain ⟨d1, hd1, -, -, hoff1, -⟩ := (lineMatches_true_iff _ _ _).mp ha
  obtain ⟨d2, hd2, -, -, hoff2, -⟩ := (lineMatches_true_iff _ _ _).mp hb
  rw [hd1] at hd2
  injection hd2 with hd
  subst hd
  exact hser (hoff1.symm.trans hoff2)

/-- Claim C9 witness: handles 1 and 2 get distinct keys, and the scenario
line matching handle `0x1122334455667711` cannot also match handle 1. -/
theorem c9_witness :
    serializeLE 1 8 ≠ serializeLE 2 8 ∧
    ¬(lineMatches (serializeLE 1 8) (List.replicate 32 171)
        "Program data: G0t13b/V/fkRd2ZVRDMiEaurq6urq6urq6urq6urq6urq6urq6urq6urq6urq6ur" = true ∧
      lineMatches (serializeLE 1234605616436508433 8) (List.replicate 32 171)
        "Program data: G0t13b/V/fkRd2ZVRDMiEaurq6urq6urq6urq6urq6urq6urq6urq6urq6urq6ur" = true) :=
  ⟨(c9_handle_independence 1 2 (by norm_num) (by norm_num) (by norm_num)).1,
   (c9_handle_independence 1 1234605616436508433 (by norm_num) (by norm_num)
      (by norm_num)).2 (List.replicate 32 171)
      "Program data: G0t13b/V/fkRd2ZVRDMiEaurq6urq6urq6urq6urq6urq6urq6urq6urq6urq6ur"⟩

/-- Claim C10: `serializeLE` is total and never signals an out-of-range
error: the result always has the requested width, equals the encoding of the
value reduced modulo `2 ^ (8 * w)` (silent truncation), and its byte `i` is
`val / 256 ^ i % 256`. -/
theorem c10_serializeLE_total_truncation (h w : Nat) :
    (serializeLE h w).length = w ∧
    serializeLE h w = serializeLE (h % 2 ^ (8 * w)) w ∧
    ∀ i, i < w → (serializeLE h w).getD i 0 = h / 256 ^ i % 256 :=
  ⟨serializeLE_length h w, serializeLE_mod w h,
   fun i hi => serializeLE_getD w h i hi⟩

/-- Claim C10 witness: a handle one past the 64-bit range is encoded exactly
like its residue, with the expected low byte. -/
theorem c10_witness :
    serializeLE (2 ^ 64 + 5) 8 = serializeLE ((2 ^ 64 + 5) % 2 ^ (8 * 8)) 8 ∧
    (serializeLE (2 ^ 64 + 5) 8).getD 0 0 = (2 ^ 64 + 5) / 256 ^ 0 % 256 :=
  ⟨(c10_serializeLE_total_truncation (2 ^ 64 + 5) 8).2.1,
   (c10_serializeLE_total_truncation (2 ^ 64 + 5) 8).2.2 0 (by norm_num)⟩

end OpportunityMarkets
